import Mathlib

/-!
Verification of the TexVerse_Utility path-resolution engine.

This file gives a shallow embedding of the decision logic of
`TexVerse_Util/download_model_by_id.py` and `TexVerse_Util/download_n_models.py`:
identifier normalization, resolution parsing, metadata-assisted path selection,
the bucket-scan fallback, and the bounded batch loop, together with theorems
settling the stated behavioural claims.  File transfer, YAML parsing and console
output are external collaborators and are modelled as parameters.
-/

set_option maxHeartbeats 1000000

/-! ## Python string primitives used by the source -/

/-- ASCII whitespace, modelling the characters stripped by Python `str.strip()`
(the source only ever strips surrounding whitespace of candidate ID text). -/
def pyIsSpace (c : Char) : Bool :=
  c == ' ' || c == '\t' || c == '\n' || c == '\r' || c == '\x0b' || c == '\x0c'

/-- Strip characters satisfying `bad` from both ends of a character list,
modelling Python `str.strip(chars)`. -/
def stripCharsList (bad : Char → Bool) (s : List Char) : List Char :=
  ((s.dropWhile bad).reverse.dropWhile bad).reverse

/-- `raw_value.strip()` in `normalize_model_id`. -/
def pyStrip (s : String) : String :=
  String.mk (stripCharsList pyIsSpace s.data)

/-- `value.strip("/ ")` as used by `StorageLayout.normalized_base_dir` and
`TexVerseDownloader._layout_for_repo_path`. -/
def pyStripSlashSpace (s : String) : String :=
  String.mk (stripCharsList (fun c => c == '/' || c == ' ') s.data)

/-- `str.startswith`, used by `_layout_for_repo_path`. -/
def strStartsWith (s pre : String) : Bool :=
  pre.data.isPrefixOf s.data

/-! ## Identifier normalization (`ID_PATTERN`, `normalize_model_id`) -/

/-- A character matched by the regex class `[0-9a-f]` under `re.IGNORECASE`. -/
def isHexChar (c : Char) : Bool :=
  ('0' ≤ c && c ≤ '9') || ('a' ≤ c && c ≤ 'f') || ('A' ≤ c && c ≤ 'F')

/-- Attempt of the regex `[0-9a-f]{32}` (IGNORECASE) at the start of `s`:
succeeds iff the first 32 characters exist and are all hexadecimal. -/
def hexMatch32 (s : List Char) : Option (List Char) :=
  let w := s.take 32
  if w.length = 32 ∧ w.all isHexChar then some w else none

/-- `re.search` of `ID_PATTERN`: try a match at each position left to right. -/
def hexSearch32 : List Char → Option (List Char)
  | [] => none
  | c :: rest =>
    match hexMatch32 (c :: rest) with
    | some w => some w
    | none => hexSearch32 rest

/-- `normalize_model_id`: strip the input, search for the first 32-character
hexadecimal run, and lowercase it.  `none` models the `ValueError` raised when
no run is found. -/
def normalize_model_id (raw_value : String) : Option String :=
  match hexSearch32 (pyStrip raw_value).data with
  | some w => some (String.mk (w.map Char.toLower))
  | none => none

/-! ## Resolution parsing (`RESOLUTION_PATTERN`, `parse_resolution_from_path`) -/

/-- Value of a run of decimal digit characters, as computed by Python `int`. -/
def digitsToInt (ds : List Char) : Int :=
  ds.foldl (fun a c => a * 10 + ((c.toNat - 48 : Nat) : Int)) 0

/-- `parse_resolution_from_path`: the regex `_([0-9]{3,5})\.glb$` (IGNORECASE)
matched against the path.  A match requires the path to end in `.glb`
(case-insensitively, with `$` also accepting a position before one final
newline), preceded by a maximal run of 3 to 5 digits, preceded by `_`.
The `int` conversion of the captured digits never fails, so the source's
`except ValueError` branch is unreachable. -/
def parse_resolution_from_path (repo_path : String) : Option Int :=
  let cs0 := repo_path.data
  let cs := if cs0.getLast? = some '\n' then cs0.dropLast else cs0
  match cs.reverse with
  | b :: l :: g :: d :: rest =>
    if b.toLower = 'b' ∧ l.toLower = 'l' ∧ g.toLower = 'g' ∧ d = '.' then
      let ds := rest.takeWhile Char.isDigit
      if 3 ≤ ds.length ∧ ds.length ≤ 5 ∧ (rest.drop ds.length).head? = some '_' then
        some (digitsToInt ds.reverse)
      else none
    else none
  | _ => none

/-! ## Storage layouts -/

/-- `StorageLayout` dataclass.  `bucket_format` is a Python format template used
only via `bucket_format.format(index=index)`; it is modelled as the formatting
function from a bucket index to the bucket name. -/
structure StorageLayout where
  name : String
  repo_id : String
  repo_type : String
  base_dir : String
  filename_suffix : Option String := none
  bucket_format : Option (Nat → String) := none
  bucket_count : Option Nat := none

/-- `StorageLayout.normalized_base_dir`. -/
def StorageLayout.normalized_base_dir (l : StorageLayout) : String :=
  pyStripSlashSpace l.base_dir

/-- `StorageLayout.supports_bucket_scan`: all three bucket fields present. -/
def StorageLayout.supports_bucket_scan (l : StorageLayout) : Bool :=
  l.filename_suffix.isSome && l.bucket_format.isSome && l.bucket_count.isSome

/-- One record of the metadata index: the `glb_paths` list of a model entry. -/
structure MetadataEntry where
  glb_paths : List String

/-- The fields of a constructed `TexVerseDownloader` that the resolution logic
reads.  Dictionaries are modelled as insertion-ordered association lists, as
Python dict iteration is insertion-ordered. -/
structure DownloaderState where
  mode : String
  fixed_resolution : Option Int
  base_dir_map : List (String × StorageLayout)
  resolution_layouts : List (Int × StorageLayout)
  fallback_layout : Option StorageLayout
  metadata_index : Option (List (String × MetadataEntry))

/-- Python `dict.get`: first binding of the key, if any. -/
def dictGet {κ α : Type} [DecidableEq κ] : List (κ × α) → κ → Option α
  | [], _ => none
  | (k2, v) :: rest, k => if k2 = k then some v else dictGet rest k

/-- The scan inside `_layout_for_repo_path`: first layout in `base_dir_map`
whose `base_dir/` is a prefix of the normalized path. -/
def baseDirScan : List (String × StorageLayout) → String → Option StorageLayout
  | [], _ => none
  | (base, layout) :: rest, normalized =>
    if strStartsWith normalized (base ++ "/") then some layout
    else baseDirScan rest normalized

/-- `TexVerseDownloader._layout_for_repo_path`. -/
def _layout_for_repo_path (cfg : DownloaderState) (repo_path : String) :
    Option StorageLayout :=
  baseDirScan cfg.base_dir_map (pyStripSlashSpace repo_path)

/-- `TexVerseDownloader._layout_for_resolution`. -/
def _layout_for_resolution (cfg : DownloaderState) (resolution : Option Int) :
    Option StorageLayout :=
  match resolution with
  | none => none
  | some r => dictGet cfg.resolution_layouts r

/-! ## Metadata-assisted selection (`_select_path_via_metadata`) -/

/-- The candidate list built by the loop in `_select_path_via_metadata`:
for each listed path with a determinable owning layout, the triple
`(parsed resolution or 0, path, layout)`. -/
def candidatesFor (cfg : DownloaderState) (entry : MetadataEntry) :
    List (Int × String × StorageLayout) :=
  entry.glb_paths.filterMap fun repo_path =>
    (_layout_for_repo_path cfg repo_path).map fun layout =>
      ((parse_resolution_from_path repo_path).getD 0, repo_path, layout)

/-- The sort key `(item[0], item[1])` of the `max` call. -/
def candKey (c : Int × String × StorageLayout) : Int × String :=
  (c.1, c.2.1)

/-- Python `<` on `(int, str)` pairs: lexicographic. -/
def keyLt (a b : Int × String) : Prop :=
  a.1 < b.1 ∨ (a.1 = b.1 ∧ a.2 < b.2)

/-- Non-strict companion of `keyLt`. -/
def keyLE (a b : Int × String) : Prop :=
  a.1 < b.1 ∨ (a.1 = b.1 ∧ a.2 ≤ b.2)

instance (a b : Int × String) : Decidable (keyLt a b) := by
  unfold keyLt; infer_instance

/-- Python `max(candidates, key=...)`: left fold keeping the current maximum,
replaced only when a strictly greater key appears (first maximum wins ties). -/
def pyMaxBy {α : Type} (key : α → Int × String) : α → List α → α
  | cur, [] => cur
  | cur, x :: xs => pyMaxBy key (if keyLt (key cur) (key x) then x else cur) xs

/-- The `fixed`-mode loop of `_select_path_via_metadata`: first candidate whose
resolution equals the target, else nothing. -/
def findFixed : List (Int × String × StorageLayout) → Int →
    Option (String × StorageLayout)
  | [], _ => none
  | (r, p, l) :: rest, t => if r = t then some (p, l) else findFixed rest t

/-- Python truthiness of an optional integer (`None` and `0` are falsy). -/
def optTruthy : Option Int → Bool
  | none => false
  | some t => t != 0

/-- `TexVerseDownloader._select_path_via_metadata`.  An entry that is an empty
dict in Python is falsy and yields nothing; it behaves identically to an entry
with an empty `glb_paths` list, which is how it is modelled here.  The source's
`res == 0` special case in the highest-available branch returns the same pair
as the general return and is therefore not a separate case. -/
def _select_path_via_metadata (cfg : DownloaderState) (model_id : String)
    (mode : String) (target_resolution : Option Int) :
    Option (String × StorageLayout) :=
  match cfg.metadata_index with
  | none => none
  | some idx =>
    if idx.isEmpty then none
    else
      match dictGet idx model_id with
      | none => none
      | some entry =>
        match candidatesFor cfg entry with
        | [] => none
        | c :: cs =>
          if mode = "fixed" ∧ optTruthy target_resolution then
            findFixed (c :: cs) (target_resolution.getD 0)
          else
            some ((pyMaxBy candKey c cs).2.1, (pyMaxBy candKey c cs).2.2)

/-! ## The `download` entry point (resolution part) -/

/-- `str.lower()`, applied per character (mode strings are ASCII). -/
def pyToLower (s : String) : String :=
  String.mk (s.data.map Char.toLower)

/-- `(mode or self.mode).lower()`: an absent or empty override is falsy. -/
def pySelectedMode (mode : Option String) (cfg : DownloaderState) : String :=
  pyToLower (match mode with
    | some m => if m = "" then cfg.mode else m
    | none => cfg.mode)

/-- `resolution or self.fixed_resolution if selected_mode == "fixed" else None`:
a zero resolution argument is falsy and defers to the configured value. -/
def pyTargetResolution (cfg : DownloaderState) (selected_mode : String)
    (resolution : Option Int) : Option Int :=
  if selected_mode = "fixed" then
    match resolution with
    | some r => if r ≠ 0 then some r else cfg.fixed_resolution
    | none => cfg.fixed_resolution
  else none

/-- The action `TexVerseDownloader.download` decides on, up to the external
file transfer: a direct metadata download, a bucket scan over a layout, or one
of the raised errors. -/
inductive DownloadStep where
  | invalidId
  | unsupportedMode (m : String)
  | fixedNeedsResolution
  | direct (layout : StorageLayout) (repo_path : String) (model_id : String)
  | bucketScan (layout : StorageLayout) (model_id : String)
  | unresolved (model_id : String)

/-- The layout choice of Step 2 of `download`:
`self._layout_for_resolution(target_resolution) if target_resolution else
self.fallback_layout` — a `None` or `0` target is falsy and selects the
configured fallback layout. -/
def fallbackChoice (cfg : DownloaderState) (target_resolution : Option Int) :
    Option StorageLayout :=
  match target_resolution with
  | some t =>
    if t ≠ 0 then _layout_for_resolution cfg (some t) else cfg.fallback_layout
  | none => cfg.fallback_layout

/-- Step 2 of `download`: choose the fallback layout (resolution map when the
target is truthy, else the configured fallback) and require bucket-scan
support; `unresolved` models the final `FileNotFoundError`. -/
def bucketFallback (cfg : DownloaderState) (model_id : String)
    (target_resolution : Option Int) : DownloadStep :=
  match fallbackChoice cfg target_resolution with
  | some l =>
    if l.supports_bucket_scan then .bucketScan l model_id
    else .unresolved model_id
  | none => .unresolved model_id

/-- `TexVerseDownloader.download`, up to the external transfer: normalize the
ID, validate the mode, compute the effective target resolution, try the
metadata lookup (a falsy empty path falls through like no path), then the
bucket-scan fallback. -/
def download (cfg : DownloaderState) (raw_model_id : String)
    (mode : Option String) (resolution : Option Int) : DownloadStep :=
  match normalize_model_id raw_model_id with
  | none => .invalidId
  | some model_id =>
    let selected_mode := pySelectedMode mode cfg
    if selected_mode ≠ "highest_available" ∧ selected_mode ≠ "fixed" then
      .unsupportedMode selected_mode
    else
      let target := pyTargetResolution cfg selected_mode resolution
      if selected_mode = "fixed" ∧ optTruthy target = false then
        .fixedNeedsResolution
      else
        match _select_path_via_metadata cfg model_id selected_mode target with
        | some (p, l) =>
          if p ≠ "" then .direct l p model_id else bucketFallback cfg model_id target
        | none => bucketFallback cfg model_id target

/-! ## Bucket scanning (`_download_via_bucket_scan`) -/

/-- Outcome of one call of the transfer primitive (`_download_direct`):
success, an `HfHubHTTPError` whose response has status 404, or any other
failure (which the scan does not catch). -/
inductive TransferOutcome where
  | success (local_path : String)
  | notFound (err : String)
  | failure (err : String)

/-- Result of `_download_via_bucket_scan`: the local path, the final
`FileNotFoundError` chained from the last not-found error, the `ValueError`
for a layout without bucket support, or a propagated transfer failure. -/
inductive ScanResult where
  | downloaded (local_path : String)
  | unresolved (last_error : Option String)
  | unsupportedLayout
  | aborted (err : String)

/-- The candidate remote path of one scan step:
`f"{layout.normalized_base_dir}/{bucket}/{model_id}{layout.filename_suffix}"`.
The two optional fields are guaranteed present by the support check. -/
def scanRepoPath (layout : StorageLayout) (model_id : String) (index : Nat) :
    String :=
  layout.normalized_base_dir ++ "/" ++ (layout.bucket_format.getD (fun _ => "")) index
    ++ "/" ++ model_id ++ layout.filename_suffix.getD ""

/-- The scan loop: try each index in order, remembering the last not-found
error; propagate any other failure immediately. -/
def bucketScanGo (transfer : String → TransferOutcome) (layout : StorageLayout)
    (model_id : String) : List Nat → Option String → ScanResult
  | [], last_error => .unresolved last_error
  | index :: rest, _last_error =>
    match transfer (scanRepoPath layout model_id index) with
    | .success p => .downloaded p
    | .notFound e => bucketScanGo transfer layout model_id rest (some e)
    | .failure e => .aborted e

/-- `TexVerseDownloader._download_via_bucket_scan`. -/
def _download_via_bucket_scan (transfer : String → TransferOutcome)
    (layout : StorageLayout) (model_id : String) : ScanResult :=
  if layout.supports_bucket_scan = false then .unsupportedLayout
  else bucketScanGo transfer layout model_id
    (List.range (layout.bucket_count.getD 0)) none

/-! ## The bounded batch loop (`download_n_models_from_config`) -/

/-- Per-ID outcome recorded by the batch loop, mirroring its log lines. -/
inductive BatchEvent where
  | skipped (model_id : String)
  | saved (model_id : String) (local_path : String)
  | failed (raw_id : String)

/-- The loop of `download_n_models_from_config` (lines 52-88): stop once
`downloaded >= n`; otherwise count the entry as scanned, normalize it, skip it
when the expected path `output_dir / model_id` exists, and otherwise attempt
the download, catching any failure.  `exists?` models the filesystem existence
check and `dl` the single-ID resolution-and-transfer call; the returned triple
is `(downloaded, scanned, events in order)`. -/
def batchGo (exists? : String → Bool) (dl : String → Except String String)
    (output_dir : String) (n : Nat) :
    List String → Nat → Nat → List BatchEvent → Nat × Nat × List BatchEvent
  | [], downloaded, scanned, events => (downloaded, scanned, events.reverse)
  | raw_id :: rest, downloaded, scanned, events =>
    if n ≤ downloaded then (downloaded, scanned, events.reverse)
    else
      match normalize_model_id raw_id with
      | none =>
        batchGo exists? dl output_dir n rest downloaded (scanned + 1)
          (.failed raw_id :: events)
      | some model_id =>
        if exists? (output_dir ++ "/" ++ model_id) then
          batchGo exists? dl output_dir n rest downloaded (scanned + 1)
            (.skipped model_id :: events)
        else
          match dl model_id with
          | .ok p =>
            batchGo exists? dl output_dir n rest (downloaded + 1) (scanned + 1)
              (.saved model_id p :: events)
          | .error _ =>
            batchGo exists? dl output_dir n rest downloaded (scanned + 1)
              (.failed raw_id :: events)

/-- The batch loop started on a fresh state. -/
def download_n_models_loop (exists? : String → Bool)
    (dl : String → Except String String) (output_dir : String) (n : Nat)
    (model_ids : List String) : Nat × Nat × List BatchEvent :=
  batchGo exists? dl output_dir n model_ids 0 0 []

/-! ## Helper lemmas: the `(resolution, path)` ordering and Python `max` -/

lemma keyLE_refl (a : Int × String) : keyLE a a := Or.inr ⟨rfl, le_refl _⟩

lemma keyLE_of_keyLt {a b : Int × String} (h : keyLt a b) : keyLE a b := by
  rcases h with h | ⟨h1, h2⟩
  · exact Or.inl h
  · exact Or.inr ⟨h1, le_of_lt h2⟩

lemma keyLE_of_not_keyLt {a b : Int × String} (h : ¬ keyLt a b) : keyLE b a := by
  unfold keyLt at h
  push_neg at h
  obtain ⟨h1, h2⟩ := h
  rcases lt_or_eq_of_le h1 with hlt | heq
  · exact Or.inl hlt
  · exact Or.inr ⟨heq, h2 heq.symm⟩

lemma keyLE_trans {a b c : Int × String} (h1 : keyLE a b) (h2 : keyLE b c) :
    keyLE a c := by
  rcases h1 with h1 | ⟨h1, h1s⟩ <;> rcases h2 with h2 | ⟨h2, h2s⟩
  · exact Or.inl (lt_trans h1 h2)
  · exact Or.inl (h2 ▸ h1)
  · exact Or.inl (h1 ▸ h2)
  · exact Or.inr ⟨h1.trans h2, le_trans h1s h2s⟩

lemma pyMaxBy_mem {α : Type} (key : α → Int × String) (cur : α) (xs : List α) :
    pyMaxBy key cur xs ∈ cur :: xs := by
  induction xs generalizing cur with
  | nil => rw [pyMaxBy]; exact List.mem_cons_self _ _
  | cons x xs ih =>
    rw [pyMaxBy]
    by_cases h : keyLt (key cur) (key x)
    · rw [if_pos h]
      exact List.mem_cons_of_mem _ (ih x)
    · rw [if_neg h]
      rcases List.mem_cons.mp (ih cur) with h1 | h1
      · rw [h1]; exact List.mem_cons_self _ _
      · exact List.mem_cons_of_mem _ (List.mem_cons_of_mem _ h1)

lemma pyMaxBy_max {α : Type} (key : α → Int × String) (cur : α) (xs : List α) :
    ∀ y ∈ cur :: xs, keyLE (key y) (key (pyMaxBy key cur xs)) := by
  induction xs generalizing cur with
  | nil =>
    intro y hy
    rw [List.mem_singleton] at hy
    subst hy
    rw [pyMaxBy]
    exact keyLE_refl _
  | cons x xs ih =>
    intro y hy
    rw [pyMaxBy]
    by_cases h : keyLt (key cur) (key x)
    · rw [if_pos h]
      rcases List.mem_cons.mp hy with hy1 | hy2
      · rw [hy1]
        exact keyLE_trans (keyLE_of_keyLt h) (ih x x (List.mem_cons_self _ _))
      · exact ih x y hy2
    · rw [if_neg h]
      rcases List.mem_cons.mp hy with hy1 | hy2
      · rw [hy1]
        exact ih cur cur (List.mem_cons_self _ _)
      · rcases List.mem_cons.mp hy2 with hy3 | hy4
        · rw [hy3]
          exact keyLE_trans (keyLE_of_not_keyLt h) (ih cur cur (List.mem_cons_self _ _))
        · exact ih cur y (List.mem_cons_of_mem _ hy4)

/-! ## Helper lemmas: candidates and the fixed-mode search -/

lemma findFixed_eq_find? (cands : List (Int × String × StorageLayout)) (t : Int) :
    findFixed cands t =
      (cands.find? (fun c => c.1 == t)).map (fun c => (c.2.1, c.2.2)) := by
  induction cands with
  | nil => rfl
  | cons c cs ih =>
    obtain ⟨r, p, l⟩ := c
    rw [findFixed, List.find?]
    by_cases h : r = t
    · simp [h]
    · simp only [h, if_false, ih]
      have : ((r, p, l).1 == t) = false := by simpa using h
      rw [this]

lemma findFixed_mem {cands : List (Int × String × StorageLayout)} {t : Int}
    {p : String} {l : StorageLayout} (h : findFixed cands t = some (p, l)) :
    (t, p, l) ∈ cands := by
  induction cands with
  | nil => cases h
  | cons c cs ih =>
    obtain ⟨r, p2, l2⟩ := c
    rw [findFixed] at h
    by_cases hr : r = t
    · rw [if_pos hr] at h
      injection h with h
      rw [Prod.mk.injEq] at h
      obtain ⟨rfl, rfl⟩ := h
      subst hr
      exact List.mem_cons_self _ _
    · rw [if_neg hr] at h
      exact List.mem_cons_of_mem _ (ih h)

lemma candidatesFor_mem {cfg : DownloaderState} {entry : MetadataEntry}
    {r : Int} {p : String} {l : StorageLayout}
    (h : (r, p, l) ∈ candidatesFor cfg entry) :
    r = (parse_resolution_from_path p).getD 0 ∧
      _layout_for_repo_path cfg p = some l ∧ p ∈ entry.glb_paths := by
  unfold candidatesFor at h
  rw [List.mem_filterMap] at h
  obtain ⟨path, hmem, hmap⟩ := h
  cases hl : _layout_for_repo_path cfg path with
  | none => rw [hl] at hmap; cases hmap
  | some l2 =>
    rw [hl] at hmap
    simp only [Option.map_some'] at hmap
    injection hmap with hmap
    rw [Prod.mk.injEq, Prod.mk.injEq] at hmap
    obtain ⟨h1, h2, h3⟩ := hmap
    subst h2
    subst h3
    exact ⟨h1.symm, hl, hmem⟩

lemma candidatesFor_not_mem {cfg : DownloaderState} {entry : MetadataEntry}
    {p : String} (h : _layout_for_repo_path cfg p = none)
    (r : Int) (l : StorageLayout) : (r, p, l) ∉ candidatesFor cfg entry := by
  intro hmem
  have := (candidatesFor_mem hmem).2.1
  rw [h] at this
  cases this

lemma dictGet_ne_nil {κ α : Type} [DecidableEq κ] {idx : List (κ × α)} {k : κ}
    {v : α} (h : dictGet idx k = some v) : idx.isEmpty = false := by
  cases idx with
  | nil => cases h
  | cons a as => rfl

lemma select_some_mem {cfg : DownloaderState} {model_id mode : String}
    {target : Option Int} {p : String} {l : StorageLayout}
    (h : _select_path_via_metadata cfg model_id mode target = some (p, l)) :
    ∃ idx entry r, cfg.metadata_index = some idx ∧
      dictGet idx model_id = some entry ∧ (r, p, l) ∈ candidatesFor cfg entry := by
  unfold _select_path_via_metadata at h
  split at h
  · cases h
  next idx hmi =>
    split at h
    · cases h
    · split at h
      · cases h
      next entry hg =>
        split at h
        · cases h
        next c cs hc =>
          split at h
          · refine ⟨idx, entry, target.getD 0, hmi, hg, ?_⟩
            rw [hc]
            exact findFixed_mem h
          · injection h with h
            rw [Prod.mk.injEq] at h
            obtain ⟨h1, h2⟩ := h
            refine ⟨idx, entry, (pyMaxBy candKey c cs).1, hmi, hg, ?_⟩
            rw [hc, ← h1, ← h2]
            exact pyMaxBy_mem candKey c cs

lemma select_fixed_some {cfg : DownloaderState} {model_id : String} {t : Int}
    {p : String} {l : StorageLayout} (ht : t ≠ 0)
    (h : _select_path_via_metadata cfg model_id "fixed" (some t) = some (p, l)) :
    ∃ idx entry, cfg.metadata_index = some idx ∧
      dictGet idx model_id = some entry ∧ (t, p, l) ∈ candidatesFor cfg entry := by
  unfold _select_path_via_metadata at h
  split at h
  · cases h
  next idx hmi =>
    split at h
    · cases h
    · split at h
      · cases h
      next entry hg =>
        split at h
        · cases h
        next c cs hc =>
          split at h
          · refine ⟨idx, entry, hmi, hg, ?_⟩
            rw [hc]
            exact findFixed_mem h
          next hcond =>
            exfalso
            exact hcond ⟨rfl, by simpa [optTruthy] using ht⟩

/-! ## Concrete fixtures used by witnesses -/

/-- A bucket-scan-capable layout for concrete examples. -/
def layA : StorageLayout :=
  { name := "highres", repo_id := "texverse/main", repo_type := "dataset",
    base_dir := "/tex/", filename_suffix := some ".glb",
    bucket_format := some (fun i => "bucket" ++ Nat.repr i),
    bucket_count := some 3 }

/-- A metadata record listing paths at resolutions 512, 2048 and 1024, plus a
path owned by no configured layout. -/
def entryA : MetadataEntry :=
  ⟨["tex/a_512.glb", "tex/a_2048.glb", "tex/a_1024.glb", "zzz/b.glb"]⟩

/-- A one-entry metadata index. -/
def idxA : List (String × MetadataEntry) :=
  [("aaaaaaaaaaaaaaaaaaaaaaaaaaaaaaaa", entryA)]

/-- A downloader configuration for concrete examples. -/
def cfgA : DownloaderState :=
  { mode := "highest_available", fixed_resolution := none,
    base_dir_map := [("tex", layA)], resolution_layouts := [(1024, layA)],
    fallback_layout := some layA, metadata_index := some idxA }

/-! ## Claim C1 -/

/-- Claim C1: in `highest_available` policy, when metadata-assisted resolution
has at least one candidate, `_select_path_via_metadata` returns the candidate
that is maximal under the lexicographic order on `(derived resolution, path
string)` — including when that maximal resolution is 0, since the statement
places no positivity constraint on the resolutions. -/
theorem claim_C1_highest_available_max
    (cfg : DownloaderState) (idx : List (String × MetadataEntry))
    (model_id : String) (entry : MetadataEntry) (target : Option Int)
    (c : Int × String × StorageLayout) (cs : List (Int × String × StorageLayout))
    (hmi : cfg.metadata_index = some idx)
    (hg : dictGet idx model_id = some entry)
    (hc : candidatesFor cfg entry = c :: cs) :
    ∃ r p l, (r, p, l) ∈ candidatesFor cfg entry ∧
      _select_path_via_metadata cfg model_id "highest_available" target =
        some (p, l) ∧
      ∀ x ∈ candidatesFor cfg entry, keyLE (candKey x) (r, p) := by
  have hne : idx.isEmpty = false := dictGet_ne_nil hg
  refine ⟨(pyMaxBy candKey c cs).1, (pyMaxBy candKey c cs).2.1,
    (pyMaxBy candKey c cs).2.2, ?_, ?_, ?_⟩
  · rw [hc]
    exact pyMaxBy_mem candKey c cs
  · simp only [_select_path_via_metadata, hmi, hne, hg, hc, Bool.false_eq_true,
      if_false]
    rw [if_neg (fun hcond => absurd hcond.1 (by decide))]
  · intro x hx
    rw [hc] at hx
    exact pyMaxBy_max candKey c cs x hx

/-- Witness for C1 at a concrete configuration: the 2048-resolution path wins. -/
theorem claim_C1_witness :
    cfgA.metadata_index = some idxA ∧
    dictGet idxA "aaaaaaaaaaaaaaaaaaaaaaaaaaaaaaaa" = some entryA ∧
    candidatesFor cfgA entryA = (512, "tex/a_512.glb", layA) ::
      [(2048, "tex/a_2048.glb", layA), (1024, "tex/a_1024.glb", layA)] ∧
    ∃ r p l, (r, p, l) ∈ candidatesFor cfgA entryA ∧
      _select_path_via_metadata cfgA "aaaaaaaaaaaaaaaaaaaaaaaaaaaaaaaa"
        "highest_available" none = some (p, l) ∧
      ∀ x ∈ candidatesFor cfgA entryA, keyLE (candKey x) (r, p) :=
  ⟨rfl, rfl, rfl,
    claim_C1_highest_available_max cfgA idxA "aaaaaaaaaaaaaaaaaaaaaaaaaaaaaaaa"
      entryA none (512, "tex/a_512.glb", layA)
      [(2048, "tex/a_2048.glb", layA), (1024, "tex/a_1024.glb", layA)]
      rfl rfl rfl⟩

/-! ## Claim C2 -/

/-- Claim C2: in `fixed` policy with a (truthy) target resolution,
metadata-assisted resolution returns exactly the first candidate whose derived
resolution equals the target (the `List.find?` equation), never a candidate at
any other resolution (second conjunct), and when it yields nothing `download`
proceeds to the bucket-scan fallback (third conjunct). -/
theorem claim_C2_fixed_exact_match :
    (∀ cfg idx model_id entry t, cfg.metadata_index = some idx →
      dictGet idx model_id = some entry → t ≠ 0 →
      _select_path_via_metadata cfg model_id "fixed" (some t) =
        ((candidatesFor cfg entry).find? (fun c => c.1 == t)).map
          (fun c => (c.2.1, c.2.2)))
    ∧ (∀ cfg model_id t p l, t ≠ 0 →
      _select_path_via_metadata cfg model_id "fixed" (some t) = some (p, l) →
      (parse_resolution_from_path p).getD 0 = t)
    ∧ (∀ cfg raw_model_id model_id marg rarg t,
      normalize_model_id raw_model_id = some model_id →
      pySelectedMode marg cfg = "fixed" →
      pyTargetResolution cfg "fixed" rarg = some t → t ≠ 0 →
      _select_path_via_metadata cfg model_id "fixed" (some t) = none →
      download cfg raw_model_id marg rarg = bucketFallback cfg model_id (some t)) := by
  refine ⟨?_, ?_, ?_⟩
  · intro cfg idx model_id entry t hmi hg ht
    have hne : idx.isEmpty = false := dictGet_ne_nil hg
    simp only [_select_path_via_metadata, hmi, hne, hg, Bool.false_eq_true,
      if_false]
    split
    next hc => rw [hc]; rfl
    next c cs hc =>
      rw [hc]
      rw [if_pos ⟨trivial, by simpa [optTruthy] using ht⟩]
      exact findFixed_eq_find? (c :: cs) t
  · intro cfg model_id t p l ht h
    obtain ⟨idx, entry, hmi, hg, hmem⟩ := select_fixed_some ht h
    exact ((candidatesFor_mem hmem).1).symm
  · intro cfg raw_model_id model_id marg rarg t hnorm hmode htarget ht hsel
    have hot : optTruthy (some t) = true := by simpa [optTruthy] using ht
    simp [download, hnorm, hmode, htarget, hot, hsel]

/-- Witness for C2: fixed target 1024 selects exactly the 1024 path, and an
absent target 4096 yields nothing. -/
theorem claim_C2_witness :
    _select_path_via_metadata cfgA "aaaaaaaaaaaaaaaaaaaaaaaaaaaaaaaa" "fixed"
        (some 1024) =
      ((candidatesFor cfgA entryA).find? (fun c => c.1 == 1024)).map
        (fun c => (c.2.1, c.2.2)) ∧
    _select_path_via_metadata cfgA "aaaaaaaaaaaaaaaaaaaaaaaaaaaaaaaa" "fixed"
        (some 1024) = some ("tex/a_1024.glb", layA) ∧
    _select_path_via_metadata cfgA "aaaaaaaaaaaaaaaaaaaaaaaaaaaaaaaa" "fixed"
        (some 4096) = none :=
  ⟨claim_C2_fixed_exact_match.1 cfgA idxA "aaaaaaaaaaaaaaaaaaaaaaaaaaaaaaaa"
      entryA 1024 rfl rfl (by decide),
    rfl, rfl⟩

/-! ## Claim C6 -/

/-- Claim C6: when metadata-assisted resolution yields nothing, the fallback
layout is `layoutForResolution target` for a given (truthy) target and the
configured fallback layout otherwise, and `download` resolves to `unresolved`
exactly when no layout was chosen or the chosen layout does not support bucket
scanning; otherwise it resolves to a bucket scan over the chosen layout. -/
theorem claim_C6_fallback_layout_and_unresolved
    (cfg : DownloaderState) (raw_model_id model_id : String)
    (marg : Option String) (rarg : Option Int) (tv : Option Int)
    (hnorm : normalize_model_id raw_model_id = some model_id)
    (hmode : pySelectedMode marg cfg = "highest_available" ∨
      pySelectedMode marg cfg = "fixed")
    (htarget : pyTargetResolution cfg (pySelectedMode marg cfg) rarg = tv)
    (hcheck : pySelectedMode marg cfg = "fixed" → optTruthy tv = true)
    (hsel : _select_path_via_metadata cfg model_id (pySelectedMode marg cfg) tv
      = none) :
    download cfg raw_model_id marg rarg = bucketFallback cfg model_id tv ∧
    (∀ t, tv = some t → t ≠ 0 →
      fallbackChoice cfg tv = _layout_for_resolution cfg (some t)) ∧
    (tv = none → fallbackChoice cfg tv = cfg.fallback_layout) ∧
    (download cfg raw_model_id marg rarg = .unresolved model_id ↔
      (fallbackChoice cfg tv = none ∨
       ∃ l, fallbackChoice cfg tv = some l ∧
         l.supports_bucket_scan = false)) ∧
    (∀ l, fallbackChoice cfg tv = some l → l.supports_bucket_scan = true →
      download cfg raw_model_id marg rarg = .bucketScan l model_id) := by
  have hdl : download cfg raw_model_id marg rarg =
      bucketFallback cfg model_id tv := by
    rcases hmode with hm | hm
    · rw [hm] at htarget hsel
      simp [download, hnorm, hm, htarget, hsel]
    · rw [hm] at htarget hsel
      have hot : optTruthy tv = true := hcheck hm
      simp [download, hnorm, hm, htarget, hsel, hot]
  refine ⟨hdl, ?_, ?_, ?_, ?_⟩
  · intro t htv ht
    rw [htv]
    simp [fallbackChoice, ht]
  · intro htv
    rw [htv]
    rfl
  · rw [hdl]
    unfold bucketFallback
    cases hch : fallbackChoice cfg tv with
    | none =>
      constructor
      · intro _
        exact Or.inl rfl
      · intro _
        rfl
    | some l =>
      by_cases hs : l.supports_bucket_scan = true
      · simp [hs]
      · simp [hs]
  · intro l hch hs
    rw [hdl]
    unfold bucketFallback
    rw [hch]
    simp [hs]

/-- A configuration with no metadata index, for fallback-path witnesses. -/
def cfgB : DownloaderState :=
  { mode := "highest_available", fixed_resolution := none,
    base_dir_map := [("tex", layA)], resolution_layouts := [(1024, layA)],
    fallback_layout := some layA, metadata_index := none }

/-- Witness for C6 at a concrete configuration with no metadata: the scan uses
the configured fallback layout. -/
theorem claim_C6_witness :
    download cfgB "aaaaaaaaaaaaaaaaaaaaaaaaaaaaaaaa" none none =
      bucketFallback cfgB "aaaaaaaaaaaaaaaaaaaaaaaaaaaaaaaa" none ∧
    (∀ t, (none : Option Int) = some t → t ≠ 0 →
      fallbackChoice cfgB none = _layout_for_resolution cfgB (some t)) ∧
    ((none : Option Int) = none → fallbackChoice cfgB none = cfgB.fallback_layout) ∧
    (download cfgB "aaaaaaaaaaaaaaaaaaaaaaaaaaaaaaaa" none none =
        .unresolved "aaaaaaaaaaaaaaaaaaaaaaaaaaaaaaaa" ↔
      (fallbackChoice cfgB none = none ∨
       ∃ l, fallbackChoice cfgB none = some l ∧
         l.supports_bucket_scan = false)) ∧
    (∀ l, fallbackChoice cfgB none = some l → l.supports_bucket_scan = true →
      download cfgB "aaaaaaaaaaaaaaaaaaaaaaaaaaaaaaaa" none none =
        .bucketScan l "aaaaaaaaaaaaaaaaaaaaaaaaaaaaaaaa") :=
  claim_C6_fallback_layout_and_unresolved cfgB "aaaaaaaaaaaaaaaaaaaaaaaaaaaaaaaa"
    "aaaaaaaaaaaaaaaaaaaaaaaaaaaaaaaa" none none none rfl (Or.inl (by decide))
    rfl (fun h => absurd h (by decide)) rfl

/-! ## Claim C10 -/

lemma bucketFallback_scan_inv {cfg : DownloaderState} {mid : String}
    {l : StorageLayout} {model_id : String}
    (h : bucketFallback cfg mid none = .bucketScan l model_id) :
    cfg.fallback_layout = some l ∧ l.supports_bucket_scan = true := by
  unfold bucketFallback at h
  have hfc : fallbackChoice cfg none = cfg.fallback_layout := rfl
  rw [hfc] at h
  cases hfl : cfg.fallback_layout with
  | none =>
    rw [hfl] at h
    simp at h
  | some l0 =>
    rw [hfl] at h
    by_cases hs : l0.supports_bucket_scan = true
    · simp [hs] at h
      obtain ⟨h1, _⟩ := h
      subst h1
      exact ⟨rfl, hs⟩
    · simp [hs] at h

/-- Claim C10: with selected mode `highest_available`, the resolution argument
has no influence on resolution: the effective target is `none`, two calls
differing only in the resolution argument resolve identically, and a
bucket-scan fallback can only use the configured fallback layout. -/
theorem claim_C10_highest_ignores_resolution
    (cfg : DownloaderState) (raw_model_id : String) (marg : Option String)
    (r1 r2 : Option Int)
    (hm : pySelectedMode marg cfg = "highest_available") :
    pyTargetResolution cfg (pySelectedMode marg cfg) r1 = none ∧
    download cfg raw_model_id marg r1 = download cfg raw_model_id marg r2 ∧
    (∀ l model_id, download cfg raw_model_id marg r1 = .bucketScan l model_id →
      cfg.fallback_layout = some l ∧ l.supports_bucket_scan = true) := by
  have ht1 : pyTargetResolution cfg "highest_available" r1 = none := rfl
  have ht2 : pyTargetResolution cfg "highest_available" r2 = none := rfl
  refine ⟨by rw [hm]; exact ht1, ?_, ?_⟩
  · simp only [download, hm, ht1, ht2]
  · intro l model_id hdl
    simp only [download, hm, ht1] at hdl
    split at hdl
    · cases hdl
    · split at hdl
      · cases hdl
      · split at hdl
        · cases hdl
        · split at hdl
          · split at hdl
            · cases hdl
            · exact bucketFallback_scan_inv hdl
          · exact bucketFallback_scan_inv hdl

/-- Witness for C10: a resolution argument of 1024 and no resolution argument
resolve identically under `highest_available`. -/
theorem claim_C10_witness :
    pyTargetResolution cfgB (pySelectedMode none cfgB) (some 1024) = none ∧
    download cfgB "aaaaaaaaaaaaaaaaaaaaaaaaaaaaaaaa" none (some 1024) =
      download cfgB "aaaaaaaaaaaaaaaaaaaaaaaaaaaaaaaa" none none ∧
    (∀ l model_id,
      download cfgB "aaaaaaaaaaaaaaaaaaaaaaaaaaaaaaaa" none (some 1024) =
        .bucketScan l model_id →
      cfgB.fallback_layout = some l ∧ l.supports_bucket_scan = true) :=
  claim_C10_highest_ignores_resolution cfgB "aaaaaaaaaaaaaaaaaaaaaaaaaaaaaaaa"
    none (some 1024) none (by decide)

/-! ## Claim C3: the bucket scan -/

lemma bucketScanGo_notFound_unresolved (transfer : String → TransferOutcome)
    (layout : StorageLayout) (model_id : String) (errs : Nat → String) :
    ∀ (l1 : List Nat) (j0 : Nat) (last : Option String),
    (∀ j ∈ l1 ++ [j0],
      transfer (scanRepoPath layout model_id j) = .notFound (errs j)) →
    bucketScanGo transfer layout model_id (l1 ++ [j0]) last =
      .unresolved (some (errs j0)) := by
  intro l1
  induction l1 with
  | nil =>
    intro j0 last h
    have h0 := h j0 (by simp)
    rw [List.nil_append, bucketScanGo, h0]
    rfl
  | cons i l1 ih =>
    intro j0 last h
    have hstep : bucketScanGo transfer layout model_id ((i :: l1) ++ [j0]) last =
        bucketScanGo transfer layout model_id (l1 ++ [j0]) (some (errs i)) := by
      rw [List.cons_append, bucketScanGo, h i (List.mem_cons_self _ _)]
    rw [hstep]
    exact ih j0 (some (errs i)) (fun j hj => h j (List.mem_cons_of_mem _ hj))

lemma bucketScanGo_skip_notFound (transfer : String → TransferOutcome)
    (layout : StorageLayout) (model_id : String) :
    ∀ (l1 l2 : List Nat) (last : Option String),
    (∀ j ∈ l1, ∃ e, transfer (scanRepoPath layout model_id j) = .notFound e) →
    ∃ last2, bucketScanGo transfer layout model_id (l1 ++ l2) last =
      bucketScanGo transfer layout model_id l2 last2 := by
  intro l1
  induction l1 with
  | nil => intro l2 last _; exact ⟨last, rfl⟩
  | cons i l1 ih =>
    intro l2 last h
    obtain ⟨e, he⟩ := h i (List.mem_cons_self _ _)
    rw [List.cons_append, bucketScanGo, he]
    exact ih l2 (some e) (fun j hj => h j (List.mem_cons_of_mem _ hj))

lemma range_split {k n : Nat} (hk : k < n) :
    List.range n = List.range k ++ k :: List.range' (k + 1) (n - k - 1) := by
  have h1 := List.range'_append 0 k (n - k) 1
  have h2 : 0 + 1 * k = k := by omega
  have h3 : n - k + k = n := by omega
  rw [h2, h3] at h1
  have h4 : List.range' k (n - k) = k :: List.range' (k + 1) (n - k - 1) := by
    have h5 : n - k = (n - k - 1) + 1 := by omega
    conv_lhs => rw [h5]
    rw [List.range'_succ]
  rw [List.range_eq_range', ← h1, h4, List.range_eq_range']

/-- Claim C3: the bucket scan enumerates indices `0 .. bucket_count - 1` in
ascending order over paths `base/bucket/modelId + suffix`; a not-found failure
is swallowed and scanning continues; any other failure aborts immediately; if
all indices are exhausted the scan is unresolved, carrying the last not-found
error; a zero bucket count is unresolved with no recorded error. -/
theorem claim_C3_bucket_scan (transfer : String → TransferOutcome)
    (layout : StorageLayout) (model_id : String)
    (hsupp : layout.supports_bucket_scan = true) :
    (∀ k p, k < layout.bucket_count.getD 0 →
      transfer (scanRepoPath layout model_id k) = .success p →
      (∀ j, j < k → ∃ e, transfer (scanRepoPath layout model_id j) = .notFound e) →
      _download_via_bucket_scan transfer layout model_id = .downloaded p)
    ∧ (∀ k e, k < layout.bucket_count.getD 0 →
      transfer (scanRepoPath layout model_id k) = .failure e →
      (∀ j, j < k → ∃ e2, transfer (scanRepoPath layout model_id j) = .notFound e2) →
      _download_via_bucket_scan transfer layout model_id = .aborted e)
    ∧ (∀ errs : Nat → String, 0 < layout.bucket_count.getD 0 →
      (∀ j, j < layout.bucket_count.getD 0 →
        transfer (scanRepoPath layout model_id j) = .notFound (errs j)) →
      _download_via_bucket_scan transfer layout model_id =
        .unresolved (some (errs (layout.bucket_count.getD 0 - 1))))
    ∧ (layout.bucket_count.getD 0 = 0 →
      _download_via_bucket_scan transfer layout model_id = .unresolved none) := by
  have hns : ¬ layout.supports_bucket_scan = false := by rw [hsupp]; decide
  refine ⟨?_, ?_, ?_, ?_⟩
  · intro k p hk hsucc hbefore
    unfold _download_via_bucket_scan
    rw [if_neg hns, range_split hk]
    obtain ⟨last2, heq⟩ := bucketScanGo_skip_notFound transfer layout model_id
      (List.range k) (k :: List.range' (k + 1) (layout.bucket_count.getD 0 - k - 1))
      none (fun j hj => hbefore j (List.mem_range.mp hj))
    rw [heq, bucketScanGo, hsucc]
  · intro k e hk hfail hbefore
    unfold _download_via_bucket_scan
    rw [if_neg hns, range_split hk]
    obtain ⟨last2, heq⟩ := bucketScanGo_skip_notFound transfer layout model_id
      (List.range k) (k :: List.range' (k + 1) (layout.bucket_count.getD 0 - k - 1))
      none (fun j hj => hbefore j (List.mem_range.mp hj))
    rw [heq, bucketScanGo, hfail]
  · intro errs hpos hall
    unfold _download_via_bucket_scan
    rw [if_neg hns]
    have h3 : layout.bucket_count.getD 0 = (layout.bucket_count.getD 0 - 1) + 1 := by
      omega
    have hsplit : List.range (layout.bucket_count.getD 0) =
        List.range (layout.bucket_count.getD 0 - 1) ++
          [layout.bucket_count.getD 0 - 1] := by
      conv_lhs => rw [h3]
      rw [List.range_succ]
    rw [hsplit]
    apply bucketScanGo_notFound_unresolved
    intro j hj
    apply hall
    rw [← hsplit] at hj
    exact List.mem_range.mp hj
  · intro h0
    unfold _download_via_bucket_scan
    rw [if_neg hns, h0]
    rfl

/-- A transfer function for the scan witness: buckets 0 and 1 are not found,
bucket 2 succeeds. -/
def transferA : String → TransferOutcome := fun p =>
  if p = "tex/bucket2/m1.glb" then .success "out/tex/bucket2/m1.glb"
  else .notFound "404 not found"

/-- Witness for C3: over three buckets with not-found at 0 and 1 and success at
2, the scan returns the bucket-2 result. -/
theorem claim_C3_witness :
    layA.supports_bucket_scan = true ∧
    2 < layA.bucket_count.getD 0 ∧
    _download_via_bucket_scan transferA layA "m1" =
      .downloaded "out/tex/bucket2/m1.glb" := by
  refine ⟨rfl, by decide, ?_⟩
  refine (claim_C3_bucket_scan transferA layA "m1" rfl).1 2
    "out/tex/bucket2/m1.glb" (by decide) rfl ?_
  intro j hj
  interval_cases j
  · exact ⟨"404 not found", rfl⟩
  · exact ⟨"404 not found", rfl⟩

/-! ## Claims C4 and C8: the bounded batch loop -/

lemma batchGo_stop {exists? : String → Bool} {dl : String → Except String String}
    {od : String} {n : Nat} {ids : List String} {d s : Nat}
    {ev : List BatchEvent} (h : n ≤ d) :
    batchGo exists? dl od n ids d s ev = (d, s, ev.reverse) := by
  cases ids with
  | nil => rfl
  | cons raw rest => rw [batchGo, if_pos h]

lemma batchGo_invalid {exists? : String → Bool}
    {dl : String → Except String String} {od : String} {n : Nat} {raw : String}
    {rest : List String} {d s : Nat} {ev : List BatchEvent}
    (hd : d < n) (hn : normalize_model_id raw = none) :
    batchGo exists? dl od n (raw :: rest) d s ev =
      batchGo exists? dl od n rest d (s + 1) (.failed raw :: ev) := by
  rw [batchGo, if_neg (by omega), hn]

lemma batchGo_skip {exists? : String → Bool}
    {dl : String → Except String String} {od : String} {n : Nat} {raw : String}
    {rest : List String} {model_id : String} {d s : Nat} {ev : List BatchEvent}
    (hd : d < n) (hn : normalize_model_id raw = some model_id)
    (hex : exists? (od ++ "/" ++ model_id) = true) :
    batchGo exists? dl od n (raw :: rest) d s ev =
      batchGo exists? dl od n rest d (s + 1) (.skipped model_id :: ev) := by
  rw [batchGo, if_neg (by omega), hn]
  simp [hex]

lemma batchGo_saved {exists? : String → Bool}
    {dl : String → Except String String} {od : String} {n : Nat} {raw : String}
    {rest : List String} {model_id p : String} {d s : Nat} {ev : List BatchEvent}
    (hd : d < n) (hn : normalize_model_id raw = some model_id)
    (hex : exists? (od ++ "/" ++ model_id) = false) (hdm : dl model_id = .ok p) :
    batchGo exists? dl od n (raw :: rest) d s ev =
      batchGo exists? dl od n rest (d + 1) (s + 1)
        (.saved model_id p :: ev) := by
  rw [batchGo, if_neg (by omega), hn]
  simp [hex, hdm]

lemma batchGo_dlfail {exists? : String → Bool}
    {dl : String → Except String String} {od : String} {n : Nat} {raw : String}
    {rest : List String} {model_id e : String} {d s : Nat} {ev : List BatchEvent}
    (hd : d < n) (hn : normalize_model_id raw = some model_id)
    (hex : exists? (od ++ "/" ++ model_id) = false)
    (hdm : dl model_id = .error e) :
    batchGo exists? dl od n (raw :: rest) d s ev =
      batchGo exists? dl od n rest d (s + 1) (.failed raw :: ev) := by
  rw [batchGo, if_neg (by omega), hn]
  simp [hex, hdm]

/-- Fixtures for the batch witnesses: only the first ID already exists. -/
def existsA : String → Bool := fun s =>
  s == "out/aaaaaaaaaaaaaaaaaaaaaaaaaaaaaaaa"

/-- A download function that always succeeds. -/
def dlOkA : String → Except String String := fun m => .ok ("local/" ++ m)

/-- Claim C4: the batch loop scans in order; an ID whose expected path
`output_dir / model_id` exists is skipped — counted in `scanned`, not
`downloaded`, with the download function never consulted (first conjunct,
a noninterference statement over download functions agreeing on non-skipped
IDs); `downloaded` never exceeds `n`; the loop stops as soon as `downloaded`
reaches `n`; a successful download advances both counters; and `scanned` can
exceed `n` (final concrete conjunct). -/
theorem claim_C4_bounded_batch_skip_existing :
    (∀ (exists? : String → Bool) (dl dl2 : String → Except String String)
      (od : String) (n : Nat) (ids : List String) (d s : Nat)
      (ev : List BatchEvent),
      (∀ m, exists? (od ++ "/" ++ m) = false → dl m = dl2 m) →
      batchGo exists? dl od n ids d s ev = batchGo exists? dl2 od n ids d s ev)
    ∧ (∀ (exists? : String → Bool) (dl : String → Except String String)
      (od : String) (n : Nat) (ids : List String) (d s : Nat)
      (ev : List BatchEvent), d ≤ n →
      (batchGo exists? dl od n ids d s ev).1 ≤ n)
    ∧ (∀ (exists? : String → Bool) (dl : String → Except String String)
      (od : String) (n : Nat) (ids : List String) (d s : Nat)
      (ev : List BatchEvent), n ≤ d →
      batchGo exists? dl od n ids d s ev = (d, s, ev.reverse))
    ∧ (∀ (exists? : String → Bool) (dl : String → Except String String)
      (od : String) (n : Nat) (raw : String) (rest : List String)
      (model_id : String) (d s : Nat) (ev : List BatchEvent), d < n →
      normalize_model_id raw = some model_id →
      exists? (od ++ "/" ++ model_id) = true →
      batchGo exists? dl od n (raw :: rest) d s ev =
        batchGo exists? dl od n rest d (s + 1) (.skipped model_id :: ev))
    ∧ (∀ (exists? : String → Bool) (dl : String → Except String String)
      (od : String) (n : Nat) (raw : String) (rest : List String)
      (model_id p : String) (d s : Nat) (ev : List BatchEvent), d < n →
      normalize_model_id raw = some model_id →
      exists? (od ++ "/" ++ model_id) = false → dl model_id = .ok p →
      batchGo exists? dl od n (raw :: rest) d s ev =
        batchGo exists? dl od n rest (d + 1) (s + 1)
          (.saved model_id p :: ev))
    ∧ (download_n_models_loop existsA dlOkA "out" 1
        ["aaaaaaaaaaaaaaaaaaaaaaaaaaaaaaaa", "bbbbbbbbbbbbbbbbbbbbbbbbbbbbbbbb"] =
      (1, 2, [.skipped "aaaaaaaaaaaaaaaaaaaaaaaaaaaaaaaa",
        .saved "bbbbbbbbbbbbbbbbbbbbbbbbbbbbbbbb"
          "local/bbbbbbbbbbbbbbbbbbbbbbbbbbbbbbbb"]) ∧ 1 < 2) := by
  refine ⟨?_, ?_, ?_, ?_, ?_, ?_, ?_⟩
  · intro exists? dl dl2 od n ids
    induction ids with
    | nil => intro d s ev _; rfl
    | cons raw rest ih =>
      intro d s ev hdl
      by_cases hnd : n ≤ d
      · rw [batchGo_stop hnd, batchGo_stop hnd]
      · have hd : d < n := by omega
        cases hn : normalize_model_id raw with
        | none =>
          rw [batchGo_invalid hd hn, batchGo_invalid hd hn]
          exact ih _ _ _ hdl
        | some mid =>
          cases hex : exists? (od ++ "/" ++ mid) with
          | true =>
            rw [batchGo_skip hd hn hex, batchGo_skip hd hn hex]
            exact ih _ _ _ hdl
          | false =>
            cases hdm : dl mid with
            | ok p =>
              have hdm2 : dl2 mid = .ok p := (hdl mid hex).symm.trans hdm
              rw [batchGo_saved hd hn hex hdm, batchGo_saved hd hn hex hdm2]
              exact ih _ _ _ hdl
            | error e =>
              have hdm2 : dl2 mid = .error e := (hdl mid hex).symm.trans hdm
              rw [batchGo_dlfail hd hn hex hdm, batchGo_dlfail hd hn hex hdm2]
              exact ih _ _ _ hdl
  · intro exists? dl od n ids
    induction ids with
    | nil => intro d s ev h; exact h
    | cons raw rest ih =>
      intro d s ev h
      by_cases hnd : n ≤ d
      · rw [batchGo_stop hnd]; exact h
      · have hd : d < n := by omega
        cases hn : normalize_model_id raw with
        | none => rw [batchGo_invalid hd hn]; exact ih _ _ _ h
        | some mid =>
          cases hex : exists? (od ++ "/" ++ mid) with
          | true => rw [batchGo_skip hd hn hex]; exact ih _ _ _ h
          | false =>
            cases hdm : dl mid with
            | ok p => rw [batchGo_saved hd hn hex hdm]; exact ih _ _ _ (by omega)
            | error e => rw [batchGo_dlfail hd hn hex hdm]; exact ih _ _ _ h
  · intro exists? dl od n ids d s ev h
    exact batchGo_stop h
  · intro exists? dl od n raw rest model_id d s ev hd hn hex
    exact batchGo_skip hd hn hex
  · intro exists? dl od n raw rest model_id p d s ev hd hn hex hdm
    exact batchGo_saved hd hn hex hdm
  · exact rfl
  · omega

/-- Witness for C4 at a concrete skipped ID: the step equation of the fourth
conjunct applied to a list whose head already exists locally. -/
theorem claim_C4_witness :
    batchGo existsA dlOkA "out" 5 ["aaaaaaaaaaaaaaaaaaaaaaaaaaaaaaaa"] 0 0 [] =
      batchGo existsA dlOkA "out" 5 [] 0 1
        [.skipped "aaaaaaaaaaaaaaaaaaaaaaaaaaaaaaaa"] :=
  claim_C4_bounded_batch_skip_existing.2.2.2.1 existsA dlOkA "out" 5
    "aaaaaaaaaaaaaaaaaaaaaaaaaaaaaaaa" [] "aaaaaaaaaaaaaaaaaaaaaaaaaaaaaaaa"
    0 0 [] (by omega) rfl rfl

/-- Claim C8: a failure on any single ID — an ID with no valid 32-hex
substring, or a failing resolution/transfer — is caught and recorded as a
`failed` event carrying the offending raw input, and processing continues with
the remaining IDs; no aggregate error exists (the loop's result type is plain
counts and events).  The final concrete conjunct shows a batch whose head is
invalid completing and still downloading the subsequent valid ID. -/
theorem claim_C8_continue_on_error :
    (∀ (exists? : String → Bool) (dl : String → Except String String)
      (od : String) (n : Nat) (raw : String) (rest : List String) (d s : Nat)
      (ev : List BatchEvent), d < n →
      normalize_model_id raw = none →
      batchGo exists? dl od n (raw :: rest) d s ev =
        batchGo exists? dl od n rest d (s + 1) (.failed raw :: ev))
    ∧ (∀ (exists? : String → Bool) (dl : String → Except String String)
      (od : String) (n : Nat) (raw : String) (rest : List String)
      (model_id e : String) (d s : Nat) (ev : List BatchEvent), d < n →
      normalize_model_id raw = some model_id →
      exists? (od ++ "/" ++ model_id) = false → dl model_id = .error e →
      batchGo exists? dl od n (raw :: rest) d s ev =
        batchGo exists? dl od n rest d (s + 1) (.failed raw :: ev))
    ∧ (download_n_models_loop existsA dlOkA "out" 1
        ["not-a-valid-id", "bbbbbbbbbbbbbbbbbbbbbbbbbbbbbbbb"] =
      (1, 2, [.failed "not-a-valid-id",
        .saved "bbbbbbbbbbbbbbbbbbbbbbbbbbbbbbbb"
          "local/bbbbbbbbbbbbbbbbbbbbbbbbbbbbbbbb"])) := by
  refine ⟨?_, ?_, rfl⟩
  · intro exists? dl od n raw rest d s ev hd hn
    exact batchGo_invalid hd hn
  · intro exists? dl od n raw rest model_id e d s ev hd hn hex hdm
    exact batchGo_dlfail hd hn hex hdm

/-- Witness for C8 at a concrete invalid ID: the failure is recorded and the
loop continues (here, with the empty remainder). -/
theorem claim_C8_witness :
    batchGo existsA dlOkA "out" 3 ["not-a-valid-id"] 0 0 [] =
      batchGo existsA dlOkA "out" 3 [] 0 1 [.failed "not-a-valid-id"] :=
  claim_C8_continue_on_error.1 existsA dlOkA "out" 3 "not-a-valid-id" [] 0 0 []
    (by omega) rfl

/-! ## Claim C9: the skip path versus resolver paths -/

lemma mem_of_isPrefixOf {l1 l2 : List Char} (h : l1.isPrefixOf l2 = true) :
    ∀ c ∈ l1, c ∈ l2 := by
  induction l1 generalizing l2 with
  | nil => intro c hc; cases hc
  | cons a l1 ih =>
    cases l2 with
    | nil => simp [List.isPrefixOf] at h
    | cons b l2 =>
      rw [List.isPrefixOf, Bool.and_eq_true] at h
      obtain ⟨hab, h2⟩ := h
      rw [beq_iff_eq] at hab
      subst hab
      intro c hc
      rcases List.mem_cons.mp hc with hc1 | hc2
      · rw [hc1]; exact List.mem_cons_self _ _
      · exact List.mem_cons_of_mem _ (ih h2 c hc2)

lemma stripCharsList_decomp (bad : Char → Bool) (s : List Char) :
    ∃ t1 t2, s = t1 ++ stripCharsList bad s ++ t2 ∧
      (∀ c ∈ t1, bad c = true) ∧ (∀ c ∈ t2, bad c = true) := by
  refine ⟨s.takeWhile bad, ((s.dropWhile bad).reverse.takeWhile bad).reverse,
    ?_, ?_, ?_⟩
  · have h2 := List.takeWhile_append_dropWhile bad (s.dropWhile bad).reverse
    have h3 := congrArg List.reverse h2
    rw [List.reverse_append, List.reverse_reverse] at h3
    have h4 : s.dropWhile bad = stripCharsList bad s ++
        ((s.dropWhile bad).reverse.takeWhile bad).reverse := h3.symm
    conv_lhs => rw [← List.takeWhile_append_dropWhile bad s]
    conv_lhs => rw [h4]
    rw [List.append_assoc]
  · intro c hc
    exact List.mem_takeWhile_imp hc
  · intro c hc
    rw [List.mem_reverse] at hc
    exact List.mem_takeWhile_imp hc

lemma mem_of_stripCharsList {bad : Char → Bool} {s : List Char} {c : Char}
    (h : c ∈ stripCharsList bad s) : c ∈ s := by
  obtain ⟨t1, t2, hdec, _, _⟩ := stripCharsList_decomp bad s
  rw [hdec]
  simp only [List.mem_append]
  exact Or.inl (Or.inr h)

lemma baseDirScan_slash {m : List (String × StorageLayout)} {nm : String}
    {l : StorageLayout} (h : baseDirScan m nm = some l) : '/' ∈ nm.data := by
  induction m with
  | nil => cases h
  | cons bl rest ih =>
    obtain ⟨base, layout⟩ := bl
    rw [baseDirScan] at h
    by_cases hc : strStartsWith nm (base ++ "/") = true
    · have hmem : '/' ∈ (base ++ "/").data := by
        rw [show (base ++ "/").data = base.data ++ ['/'] from rfl]
        exact List.mem_append.mpr (Or.inr (List.mem_singleton.mpr rfl))
      exact mem_of_isPrefixOf hc '/' hmem
    · rw [if_neg hc] at h
      exact ih h

lemma select_path_slash {cfg : DownloaderState} {model_id mode : String}
    {target : Option Int} {p : String} {l : StorageLayout}
    (h : _select_path_via_metadata cfg model_id mode target = some (p, l)) :
    '/' ∈ p.data := by
  obtain ⟨idx, entry, r, _, _, hmem⟩ := select_some_mem h
  obtain ⟨_, hl, _⟩ := candidatesFor_mem hmem
  unfold _layout_for_repo_path at hl
  exact mem_of_stripCharsList (baseDirScan_slash hl)

lemma hexMatch32_some {s w : List Char} (h : hexMatch32 s = some w) :
    w = s.take 32 ∧ w.length = 32 ∧ w.all isHexChar = true := by
  simp only [hexMatch32] at h
  split at h
  next hcond =>
    injection h with h
    subst h
    exact ⟨rfl, hcond.1, hcond.2⟩
  next => cases h

lemma hexSearch32_props {s w : List Char} (h : hexSearch32 s = some w) :
    w.length = 32 ∧ w.all isHexChar = true := by
  induction s with
  | nil => cases h
  | cons c rest ih =>
    rw [hexSearch32] at h
    cases hm : hexMatch32 (c :: rest) with
    | some w2 =>
      rw [hm] at h
      injection h with h
      subst h
      exact (hexMatch32_some hm).2
    | none =>
      rw [hm] at h
      exact ih h

lemma hex_toLower_ne_slash {c : Char} (h : isHexChar c = true) :
    Char.toLower c ≠ '/' := by
  intro heq
  simp only [Char.toLower] at heq
  by_cases hcond : c.toNat ≥ 65 ∧ c.toNat ≤ 90
  · rw [if_pos hcond] at heq
    obtain ⟨h65, h90⟩ := hcond
    generalize hg : c.toNat = n at heq h65 h90
    interval_cases n <;> exact absurd heq (by decide)
  · rw [if_neg hcond] at heq
    subst heq
    exact absurd h (by decide)

lemma normalize_no_slash {raw mid : String}
    (h : normalize_model_id raw = some mid) : '/' ∉ mid.data := by
  unfold normalize_model_id at h
  cases hs : hexSearch32 (pyStrip raw).data with
  | none => rw [hs] at h; cases h
  | some w =>
    rw [hs] at h
    injection h with h
    intro hmem
    rw [← h] at hmem
    have hmem2 : '/' ∈ w.map Char.toLower := hmem
    obtain ⟨c, hcw, hcl⟩ := List.mem_map.mp hmem2
    have hall := (hexSearch32_props hs).2
    rw [List.all_eq_true] at hall
    exact hex_toLower_ne_slash (hall c hcw) hcl

/-- Claim C9 (amended): the expected local path checked by the bounded batch is
`output_dir / bare 32-character id`, whose final component contains no
directory separator, whereas every remote path the resolver can produce — a
metadata-selected path or a bucket-scan path — contains at least one `/`
(ending in `.glb` is **not** guaranteed; it depends on configuration and
metadata, see the counterexample).  Hence for every resolvable ID the skip
check inspects a path different from `output_dir` joined with the resolved
remote path. -/
theorem claim_C9_skip_path_differs :
    (∀ cfg model_id mode target p l,
      _select_path_via_metadata cfg model_id mode target = some (p, l) →
      '/' ∈ p.data)
    ∧ (∀ layout model_id index,
      '/' ∈ (scanRepoPath layout model_id index).data)
    ∧ (∀ raw model_id, normalize_model_id raw = some model_id →
      '/' ∉ model_id.data)
    ∧ (∀ od model_id p, '/' ∉ model_id.data → '/' ∈ p.data →
      od ++ "/" ++ model_id ≠ od ++ "/" ++ p) := by
  refine ⟨?_, ?_, ?_, ?_⟩
  · intro cfg model_id mode target p l h
    exact select_path_slash h
  · intro layout model_id index
    have hd : (scanRepoPath layout model_id index).data =
        layout.normalized_base_dir.data ++ ['/'] ++
        ((layout.bucket_format.getD fun _ => "") index).data ++ ['/'] ++
        model_id.data ++ (layout.filename_suffix.getD "").data := rfl
    rw [hd]
    simp
  · intro raw model_id h
    exact normalize_no_slash h
  · intro od model_id p hnm hp heq
    have hdata := congrArg String.data heq
    rw [show (od ++ "/" ++ model_id).data = (od.data ++ ['/']) ++ model_id.data
        from rfl,
      show (od ++ "/" ++ p).data = (od.data ++ ['/']) ++ p.data from rfl]
      at hdata
    have hmp := List.append_cancel_left hdata
    rw [hmp] at hnm
    exact hnm hp

/-- A layout owning plain paths with no `.glb` discipline. -/
def lay9 : StorageLayout :=
  { name := "plain", repo_id := "texverse/main", repo_type := "dataset",
    base_dir := "tex" }

/-- A configuration whose metadata lists a resolvable path that does not end
in `.glb`. -/
def cfg9 : DownloaderState :=
  { mode := "highest_available", fixed_resolution := none,
    base_dir_map := [("tex", lay9)], resolution_layouts := [],
    fallback_layout := none,
    metadata_index :=
      some [("cccccccccccccccccccccccccccccccc", ⟨["tex/alpha.obj"]⟩)] }

/-- Counterexample to C9 as stated: the resolver can produce the remote path
`tex/alpha.obj`, which does not end in a `.glb` filename suffix, so the clause
"every remote path the resolver can produce ... ends in a .glb filename
suffix" is false on the code. -/
theorem claim_C9_counterexample :
    _select_path_via_metadata cfg9 "cccccccccccccccccccccccccccccccc"
      "highest_available" none = some ("tex/alpha.obj", lay9) ∧
    ("tex/alpha.obj").data.reverse.take 4 ≠ (".glb").data.reverse :=
  ⟨rfl, by decide⟩

/-- Witness for C9 at concrete strings: the skip path and the joined remote
path differ. -/
theorem claim_C9_witness :
    "out" ++ "/" ++ "cccccccccccccccccccccccccccccccc" ≠
      "out" ++ "/" ++ "tex/alpha.obj" :=
  claim_C9_skip_path_differs.2.2.2 "out" "cccccccccccccccccccccccccccccccc"
    "tex/alpha.obj" (by decide) (by decide)

/-! ## Claim C7: resolution suffix parsing -/

lemma takeWhile_all_append {p : Char → Bool} {x : Char} (l1 l2 : List Char)
    (h1 : ∀ c ∈ l1, p c = true) (hx : p x = false) :
    (l1 ++ x :: l2).takeWhile p = l1 := by
  induction l1 with
  | nil => simp [hx]
  | cons a l1 ih =>
    have ha := h1 a (List.mem_cons_self _ _)
    simp [List.takeWhile_cons, ha,
      ih (fun c hc => h1 c (List.mem_cons_of_mem _ hc))]

/-- Claim C7 (amended): a numeric suffix of **3 to 5 digits** before the
`.glb` extension parses to its value; any candidate's resolution is the parsed
value or 0 when unparseable (shorter or longer digit runs, or no suffix, give
`none`, hence 0 — see the counterexample for a 2-digit suffix); paths whose
owning layout cannot be determined are discarded from candidate selection. -/
theorem claim_C7_resolution_suffix :
    (∀ (t : String) (ds : List Char), 3 ≤ ds.length → ds.length ≤ 5 →
      (∀ c ∈ ds, c.isDigit = true) →
      parse_resolution_from_path (t ++ "_" ++ String.mk ds ++ ".glb") =
        some (digitsToInt ds))
    ∧ (∀ (cfg : DownloaderState) (entry : MetadataEntry) (r : Int) (p : String)
      (l : StorageLayout), (r, p, l) ∈ candidatesFor cfg entry →
      r = (parse_resolution_from_path p).getD 0 ∧
        _layout_for_repo_path cfg p = some l ∧ p ∈ entry.glb_paths)
    ∧ (∀ (cfg : DownloaderState) (entry : MetadataEntry) (p : String),
      _layout_for_repo_path cfg p = none →
      ∀ (r : Int) (l : StorageLayout), (r, p, l) ∉ candidatesFor cfg entry) := by
  refine ⟨?_, ?_, ?_⟩
  · intro t ds h3 h5 hds
    have hdata : (t ++ "_" ++ String.mk ds ++ ".glb").data =
        ((t.data ++ ['_']) ++ ds) ++ ['.', 'g', 'l', 'b'] := rfl
    have hlast : (((t.data ++ ['_']) ++ ds) ++ ['.', 'g', 'l', 'b']).getLast? =
        some 'b' := by
      rw [show ((t.data ++ ['_']) ++ ds) ++ ['.', 'g', 'l', 'b'] =
        (((t.data ++ ['_']) ++ ds) ++ ['.', 'g', 'l']) ++ ['b'] from by simp]
      exact List.getLast?_concat _
    have hrev : (((t.data ++ ['_']) ++ ds) ++ ['.', 'g', 'l', 'b']).reverse =
        'b' :: 'l' :: 'g' :: '.' :: (ds.reverse ++ '_' :: t.data.reverse) := by
      simp [List.reverse_append]
    have htw : (ds.reverse ++ '_' :: t.data.reverse).takeWhile Char.isDigit =
        ds.reverse :=
      takeWhile_all_append _ _
        (fun c hc => hds c (List.mem_reverse.mp hc)) (by decide)
    simp only [parse_resolution_from_path, hdata, hlast]
    rw [if_neg (show ¬ (some 'b' = some '\n') from by decide)]
    simp only [hrev]
    rw [if_pos (show Char.toLower 'b' = 'b' ∧ Char.toLower 'l' = 'l' ∧
      Char.toLower 'g' = 'g' ∧ True from by decide)]
    simp only [htw, List.drop_left]
    rw [if_pos ⟨by simpa using h3, by simpa using h5, rfl⟩]
    rw [List.reverse_reverse]
  · intro cfg entry r p l h
    exact candidatesFor_mem h
  · intro cfg entry p h r l
    exact candidatesFor_not_mem h r l

/-- Counterexample to C7 as stated: the path `models/a_99.glb` carries the
numeric suffix 99 before `.glb`, but the parser yields nothing (the regex
requires 3 to 5 digits), so its derived resolution is 0, not 99. -/
theorem claim_C7_counterexample :
    parse_resolution_from_path "models/a_99.glb" = none ∧
    (parse_resolution_from_path "models/a_99.glb").getD 0 ≠ (99 : Int) :=
  ⟨rfl, by decide⟩

/-- Witness for C7: a four-digit suffix parses to its value. -/
theorem claim_C7_witness :
    parse_resolution_from_path
        ("models/a" ++ "_" ++ String.mk ['1', '0', '2', '4'] ++ ".glb") =
      some (digitsToInt ['1', '0', '2', '4']) :=
  claim_C7_resolution_suffix.1 "models/a" ['1', '0', '2', '4']
    (by decide) (by decide) (by decide)

/-! ## Claim C5: identifier normalization -/

lemma isHexChar_not_space {c : Char} (h : isHexChar c = true) :
    pyIsSpace c = false := by
  cases hs : pyIsSpace c
  · rfl
  · exfalso
    simp only [pyIsSpace, Bool.or_eq_true, beq_iff_eq] at hs
    have hc : c = ' ' ∨ c = '\t' ∨ c = '\n' ∨ c = '\r' ∨ c = '\x0b' ∨
        c = '\x0c' := by tauto
    rcases hc with rfl | rfl | rfl | rfl | rfl | rfl <;>
      exact absurd h (by decide)

lemma hexMatch32_of {w rest : List Char} (hlen : w.length = 32)
    (hall : w.all isHexChar = true) : hexMatch32 (w ++ rest) = some w := by
  have htake : (w ++ rest).take 32 = w := by
    rw [← hlen]
    exact List.take_left _ _
  simp only [hexMatch32, htake]
  rw [if_pos ⟨hlen, hall⟩]

lemma hexSearch32_isSome (w post : List Char) (hlen : w.length = 32)
    (hall : w.all isHexChar = true) :
    ∀ pre : List Char, ∃ w2, hexSearch32 (pre ++ w ++ post) = some w2 := by
  intro pre
  induction pre with
  | nil =>
    cases w with
    | nil => cases hlen
    | cons c wr =>
      have hm : hexMatch32 (c :: (wr ++ post)) = some (c :: wr) :=
        hexMatch32_of hlen hall
      refine ⟨c :: wr, ?_⟩
      rw [List.nil_append, List.cons_append, hexSearch32, hm]
  | cons a pre ih =>
    rw [List.cons_append, List.cons_append, hexSearch32]
    cases hm : hexMatch32 (a :: (pre ++ w ++ post)) with
    | some w0 => exact ⟨w0, rfl⟩
    | none => exact ih

lemma hexSearch32_char {s w : List Char} (h : hexSearch32 s = some w) :
    ∃ pre post, s = pre ++ w ++ post ∧ w.length = 32 ∧
      w.all isHexChar = true ∧
      ∀ pre2 w2 post2, s = pre2 ++ w2 ++ post2 → w2.length = 32 →
        w2.all isHexChar = true → pre.length ≤ pre2.length := by
  induction s with
  | nil => cases h
  | cons c rest ih =>
    rw [hexSearch32] at h
    cases hm : hexMatch32 (c :: rest) with
    | some w0 =>
      rw [hm] at h
      injection h with h
      subst h
      obtain ⟨htake, hlen, hall⟩ := hexMatch32_some hm
      refine ⟨[], (c :: rest).drop 32, ?_, hlen, hall, ?_⟩
      · rw [List.nil_append, htake]
        exact (List.take_append_drop 32 (c :: rest)).symm
      · intro pre2 w2 post2 _ _ _
        exact Nat.zero_le _
    | none =>
      rw [hm] at h
      obtain ⟨pre, post, hdec, hlen, hall, hmin⟩ := ih h
      refine ⟨c :: pre, post, ?_, hlen, hall, ?_⟩
      · rw [List.cons_append, List.cons_append, ← hdec]
      · intro pre2 w2 post2 hdec2 hlen2 hall2
        cases pre2 with
        | nil =>
          exfalso
          rw [List.nil_append] at hdec2
          have hm2 : hexMatch32 (c :: rest) = some w2 := by
            rw [hdec2]
            exact hexMatch32_of hlen2 hall2
          rw [hm] at hm2
          cases hm2
        | cons a pre2 =>
          rw [List.cons_append, List.cons_append] at hdec2
          injection hdec2 with h1 h2
          have := hmin pre2 w2 post2 h2 hlen2 hall2
          simpa using Nat.succ_le_succ this

lemma window_after_bad (bad : Char → Bool) :
    ∀ (t1 rest pre w post : List Char),
    t1 ++ rest = pre ++ w ++ post →
    (∀ c ∈ t1, bad c = true) → (∀ c ∈ w, bad c = false) → w ≠ [] →
    ∃ pre2, pre = t1 ++ pre2 ∧ rest = pre2 ++ w ++ post := by
  intro t1
  induction t1 with
  | nil =>
    intro rest pre w post h _ _ _
    rw [List.nil_append] at h
    exact ⟨pre, (List.nil_append pre).symm, h⟩
  | cons a t1 ih =>
    intro rest pre w post h ht1 hw hne
    cases pre with
    | nil =>
      rw [List.nil_append] at h
      cases w with
      | nil => exact absurd rfl hne
      | cons b wr =>
        rw [List.cons_append, List.cons_append] at h
        injection h with h1 _
        have hba := ht1 a (List.mem_cons_self _ _)
        have hbb := hw b (List.mem_cons_self _ _)
        rw [h1, hbb] at hba
        cases hba
    | cons p pre =>
      rw [List.cons_append, List.cons_append, List.cons_append] at h
      injection h with h1 h2
      subst h1
      obtain ⟨pre2, hp, hr⟩ := ih rest pre w post h2
        (fun c hc => ht1 c (List.mem_cons_of_mem _ hc)) hw hne
      refine ⟨pre2, ?_, hr⟩
      rw [List.cons_append, hp]

lemma window_before_bad (bad : Char → Bool) (m t2 pre w post : List Char)
    (h : m ++ t2 = pre ++ w ++ post) (ht2 : ∀ c ∈ t2, bad c = true)
    (hw : ∀ c ∈ w, bad c = false) (hne : w ≠ []) :
    ∃ post2, post = post2 ++ t2 ∧ m = pre ++ w ++ post2 := by
  have hrev : t2.reverse ++ m.reverse =
      post.reverse ++ w.reverse ++ pre.reverse := by
    have h2 := congrArg List.reverse h
    simpa [List.reverse_append, List.append_assoc] using h2
  obtain ⟨pre2, hp, hr⟩ := window_after_bad bad t2.reverse m.reverse
    post.reverse w.reverse pre.reverse hrev
    (fun c hc => ht2 c (List.mem_reverse.mp hc))
    (fun c hc => hw c (List.mem_reverse.mp hc))
    (by simpa using hne)
  refine ⟨pre2.reverse, ?_, ?_⟩
  · have h3 := congrArg List.reverse hp
    simpa [List.reverse_append] using h3
  · have h3 := congrArg List.reverse hr
    simpa [List.reverse_append, List.append_assoc] using h3

lemma window_in_middle (bad : Char → Bool) (t1 m t2 pre w post : List Char)
    (h : t1 ++ m ++ t2 = pre ++ w ++ post)
    (ht1 : ∀ c ∈ t1, bad c = true) (ht2 : ∀ c ∈ t2, bad c = true)
    (hw : ∀ c ∈ w, bad c = false) (hne : w ≠ []) :
    ∃ pre2 post2, m = pre2 ++ w ++ post2 ∧ pre = t1 ++ pre2 := by
  have h2 : t1 ++ (m ++ t2) = pre ++ w ++ post := by
    rw [← List.append_assoc]
    exact h
  obtain ⟨pre2, hp, hr⟩ := window_after_bad bad t1 (m ++ t2) pre w post h2
    ht1 hw hne
  obtain ⟨post2, _, hm⟩ := window_before_bad bad m t2 pre2 w post hr ht2 hw hne
  exact ⟨pre2, post2, hm, hp⟩

/-- Claim C5: for every input containing a 32-character hexadecimal run,
`normalize_model_id` succeeds and returns the leftmost such run lowercased
(first conjunct: success characterization with leftmost-position minimality;
second conjunct: success on every input containing such a run — its
contrapositive is failure exactly on inputs lacking one).  The embedding is a
pure function, matching the no-side-effects clause. -/
theorem claim_C5_normalize (raw : String) :
    (∀ r, normalize_model_id raw = some r →
      ∃ pre w post, raw.data = pre ++ w ++ post ∧ w.length = 32 ∧
        w.all isHexChar = true ∧ r.data = w.map Char.toLower ∧
        ∀ pre2 w2 post2, raw.data = pre2 ++ w2 ++ post2 → w2.length = 32 →
          w2.all isHexChar = true → pre.length ≤ pre2.length)
    ∧ (∀ pre w post, raw.data = pre ++ w ++ post → w.length = 32 →
      w.all isHexChar = true → ∃ r, normalize_model_id raw = some r) := by
  obtain ⟨t1, t2, hdec0, ht1, ht2⟩ := stripCharsList_decomp pyIsSpace raw.data
  have hdec : raw.data = t1 ++ (pyStrip raw).data ++ t2 := hdec0
  constructor
  · intro r h
    unfold normalize_model_id at h
    cases hs : hexSearch32 (pyStrip raw).data with
    | none => rw [hs] at h; cases h
    | some w =>
      rw [hs] at h
      injection h with h
      obtain ⟨pre, post, hmdec, hlen, hall, hmin⟩ := hexSearch32_char hs
      refine ⟨t1 ++ pre, w, post ++ t2, ?_, hlen, hall, by rw [← h], ?_⟩
      · rw [hdec, hmdec]
        simp [List.append_assoc]
      · intro pre2 w2 post2 hdec2 hlen2 hall2
        have hw2 : ∀ c ∈ w2, pyIsSpace c = false := fun c hc =>
          isHexChar_not_space ((List.all_eq_true.mp hall2) c hc)
        have hne2 : w2 ≠ [] := by
          intro h0
          rw [h0] at hlen2
          cases hlen2
        obtain ⟨pre2m, post2m, hm2, hp2⟩ := window_in_middle pyIsSpace t1
          (pyStrip raw).data t2 pre2 w2 post2 (by rw [← hdec, hdec2]) ht1 ht2
          hw2 hne2
        have hle := hmin pre2m w2 post2m hm2 hlen2 hall2
        rw [hp2]
        simp only [List.length_append]
        omega
  · intro pre w post hdec2 hlen hall
    have hw : ∀ c ∈ w, pyIsSpace c = false := fun c hc =>
      isHexChar_not_space ((List.all_eq_true.mp hall) c hc)
    have hne : w ≠ [] := by
      intro h0
      rw [h0] at hlen
      cases hlen
    obtain ⟨pre2, post2, hm2, _⟩ := window_in_middle pyIsSpace t1
      (pyStrip raw).data t2 pre w post (by rw [← hdec, hdec2]) ht1 ht2 hw hne
    obtain ⟨w2, hs⟩ := hexSearch32_isSome w post2 hlen hall pre2
    unfold normalize_model_id
    rw [show (pyStrip raw).data = pre2 ++ w ++ post2 from hm2, hs]
    exact ⟨_, rfl⟩

/-- Witness for C5: a mixed-case ID embedded in surrounding text is found and
lowercased. -/
theorem claim_C5_witness :
    (∃ r, normalize_model_id "xx0123456789AbCdEf0123456789abcdefyy" = some r) ∧
    normalize_model_id "xx0123456789AbCdEf0123456789abcdefyy" =
      some "0123456789abcdef0123456789abcdef" :=
  ⟨(claim_C5_normalize "xx0123456789AbCdEf0123456789abcdefyy").2
      "xx".data "0123456789AbCdEf0123456789abcdef".data "yy".data
      (by decide) (by decide) (by decide),
    rfl⟩
